import Mathlib

/-!
A shallow embedding of `blender_downloader.py` (repository
`bitsydoge/blender-downloader`): a linear script that scrapes an HTML
listing page for a build archive link, downloads the archive to the
system temp directory, extracts it into `<base_dir>/Blender <version>`,
and records the installed link in a marker file
`<base_dir>/Blender <version>/.blender_build`.

Modelling choices:
* Strings are Lean `String`; Python substring membership (`sub in s`),
  `str.endswith`, `str.lower` and `os.path.basename` are re-implemented
  over `List Char` so that they reduce in the kernel.
* The filesystem is a flat association list from path strings to nodes
  (text file, zip file, or directory).  `os.path.join` is modelled as
  joining with `"/"`.  `shutil.rmtree p` removes `p` and every path that
  has `p ++ "/"` as a prefix.
* A zip archive is a validity flag (whether `ZipFile(...)`/`namelist()`
  succeeds) together with its entry list; entry names are kept as
  pre-split path-segment lists.
* Python I/O that can fail nondeterministically (the write-permission
  probe) is driven by an oracle in the `World`; exceptions that the
  script does not catch become the `Outcome.raised` result, while
  `exit(n)` and falling off the end of the script become
  `Outcome.exited`.  (A real Python process maps an uncaught exception
  to a nonzero status; the embedding keeps the two termination modes
  distinct, as the program text does.)
* Console output and external effects are recorded as an `Event` trace.
-/

namespace BD

/-! ## Character/string primitives (models of Python's `in`, `endswith`,
`lower`, `os.path.basename`) -/

/-- Boolean prefix test on character lists. -/
def isPrefixOfL : List Char → List Char → Bool
  | [], _ => true
  | _ :: _, [] => false
  | a :: as, b :: bs => a == b && isPrefixOfL as bs

/-- Boolean infix (substring) test on character lists; model of Python
`sub in s`. -/
def isInfixOfL (p : List Char) : List Char → Bool
  | [] => isPrefixOfL p []
  | l@(_ :: rest) => isPrefixOfL p l || isInfixOfL p rest

/-- `strContains s sub` models Python `sub in s`. -/
def strContains (s sub : String) : Bool := isInfixOfL sub.toList s.toList

/-- Model of Python `s.endswith(suf)`. -/
def strEndsWith (s suf : String) : Bool :=
  isPrefixOfL suf.toList.reverse s.toList.reverse

/-- Strip a prefix from a character list, returning the remainder. -/
def dropPrefixL : List Char → List Char → Option (List Char)
  | [], l => some l
  | _ :: _, [] => none
  | a :: as, b :: bs => if a == b then dropPrefixL as bs else none

/-- Lower-case one ASCII character (model of `str.lower` per character). -/
def lowC (c : Char) : Char :=
  if 'A' ≤ c ∧ c ≤ 'Z' then Char.ofNat (c.toNat + 32) else c

/-- Model of Python `s.lower()` (ASCII; OS tags are ASCII). -/
def lowerS (s : String) : String := ⟨s.toList.map lowC⟩

/-- Model of `os.path.basename` (the segment after the last `'/'`). -/
def basenameL (l : List Char) : List Char :=
  l.foldl (fun acc c => if c == '/' then [] else acc ++ [c]) []

/-- Model of `os.path.basename` on strings. -/
def basenameStr (s : String) : String := ⟨basenameL s.toList⟩

/-- Order-preserving de-duplication (first occurrence wins), with a fuel
argument so that it reduces in the kernel. -/
def dedupFuel : Nat → List String → List String
  | 0, _ => []
  | _ + 1, [] => []
  | n + 1, x :: xs => x :: dedupFuel n (xs.filter (fun y => y ≠ x))

/-- Order-preserving de-duplication (first occurrence wins); used to model
`os.listdir` returning each name once. -/
def dedupF (l : List String) : List String := dedupFuel l.length l

/-! ## Zip archives -/

/-- A node inside a zip archive: a directory entry or a file entry. -/
inductive ZNode where
  | dirN : ZNode
  | fileN (content : String) : ZNode
deriving DecidableEq, Repr

/-- A zip archive: `valid` says whether `ZipFile(...)` plus `namelist()`
succeeds on the file; `entries` are the archive members with their names
pre-split into path segments. -/
structure Archive where
  valid : Bool
  entries : List (List String × ZNode)
deriving DecidableEq, Repr

/-- The top-level names of an archive, in first-occurrence order: the model
of `os.listdir` on the scratch directory right after `extractall`. -/
def Archive.tops (a : Archive) : List String :=
  dedupF (a.entries.filterMap (fun e => e.1.head?))

/-- The immediate children of top-level folder `t`, in first-occurrence
order: the model of `os.listdir` on the extracted top-level folder. -/
def Archive.childrenOf (a : Archive) (t : String) : List String :=
  dedupF (a.entries.filterMap (fun e =>
    match e.1 with
    | s :: c :: _ => if s = t then some c else none
    | _ => none))

/-- Whether the extracted top-level entry `t` is a directory on disk after
`extractall`: either the archive has an explicit directory member `t`, or
some member lies below `t` (which forces `t` to be created as a
directory).  When `t` is only a regular-file member, `os.listdir(t)`
raises `NotADirectoryError`. -/
def Archive.topIsDir (a : Archive) (t : String) : Bool :=
  a.entries.any (fun e =>
    match e.1, e.2 with
    | [s], ZNode.dirN => s == t
    | s :: _ :: _, _ => s == t
    | _, _ => false)

/-! ## Filesystem -/

/-- A filesystem node: a text file, a zip file on disk, or a directory. -/
inductive Node where
  | text (s : String) : Node
  | zipf (a : Archive) : Node
  | dir : Node
deriving DecidableEq, Repr

/-- A flat filesystem: association list from absolute path to node.  The
first binding for a path wins. -/
abbrev FS := List (String × Node)

/-- Path lookup (first binding wins). -/
def lookupF (fs : FS) (p : String) : Option Node :=
  (fs.find? (fun e => e.1 == p)).map (fun e => e.2)

/-- Model of `os.path.exists`. -/
def existsB (fs : FS) (p : String) : Bool := (lookupF fs p).isSome

/-- Create or overwrite the node at a path (model of `open(p, "w")` /
`os.makedirs`). -/
def writeF (fs : FS) (p : String) (n : Node) : FS :=
  (p, n) :: fs.filter (fun e => e.1 ≠ p)

/-- Model of `os.remove`. -/
def removeF (fs : FS) (p : String) : FS :=
  fs.filter (fun e => e.1 ≠ p)

/-- Model of `shutil.rmtree p`: removes `p` itself and everything below
it. -/
def rmtreeF (fs : FS) (p : String) : FS :=
  fs.filter (fun e => ¬ (e.1 = p ∨ isPrefixOfL (p.data ++ ['/']) e.1.data = true))

/-- The name under which `q` is an immediate child of directory `p`,
if it is one. -/
def childName (p q : String) : Option String :=
  match dropPrefixL (p.data ++ ['/']) q.data with
  | none => none
  | some [] => none
  | some rest => if rest.contains '/' then none else some ⟨rest⟩

/-- Model of `os.listdir p` on the flat filesystem: the names of the
immediate children of `p`, each once, in binding order. -/
def listdirF (fs : FS) (p : String) : List String :=
  dedupF (fs.filterMap (fun e => childName p e.1))

/-- Model of `is_valid_zip` (source lines 27–33): open the file as a zip
and list its entries; any exception yields `false`. -/
def is_valid_zip (fs : FS) (p : String) : Bool :=
  match lookupF fs p with
  | some (Node.zipf a) => a.valid
  | _ => false

/-! ## Link matching and the anchor scan -/

/-- The three-part predicate of source line 81:
`f"blender-{args.version}" in file_url and f"{args.os}" in file_url and
file_url.endswith(".zip")`. -/
def linkMatches (version osTag href : String) : Bool :=
  strContains href ("blender-" ++ version) && strContains href osTag &&
    strEndsWith href ".zip"

/-- Python exceptions that the script can raise without catching them. -/
inductive PyErr where
  | typeError : PyErr
  | ioError : PyErr
  | badZipFile : PyErr
  | fileNotFound : PyErr
  | indexError : PyErr
  | keyError : PyErr
  | notADirError : PyErr
deriving DecidableEq, Repr

/-- The anchor scan of source lines 79–81: walk the anchors in document
order; an anchor without an `href` makes `file_url` equal to `None`, and
`"..." in None` raises `TypeError`; otherwise the first `href` satisfying
`linkMatches` is selected (the loop body always ends in `break`). -/
def scanHrefs (version osTag : String) : List (Option String) → Except PyErr (Option String)
  | [] => Except.ok none
  | none :: _ => Except.error PyErr.typeError
  | some u :: rest =>
      if linkMatches version osTag u then Except.ok (some u)
      else scanHrefs version osTag rest

/-- The anchor scan restricted to pages in which every anchor carries an
`href`: selects the first matching href in document order. -/
def selectLink (version osTag : String) (hrefs : List String) : Option String :=
  hrefs.find? (linkMatches version osTag)

/-! ## Program state, events and configuration -/

/-- Observable external effects of one run, in order. -/
inductive Event where
  | print (msg : String) : Event
  | writeFile (p : String) : Event
  | removeFile (p : String) : Event
  | rmtreeDir (p : String) : Event
  | makedirs (p : String) : Event
  | getPage (url : String) : Event
  | getArchive (url : String) : Event
  | openZip (p : String) : Event
  | extractAll : Event
  | moveItem (name : String) : Event
deriving DecidableEq, Repr

/-- How one run terminates: an explicit `exit(code)` / falling off the end
of the script (`exited 0`), or an uncaught Python exception. -/
inductive Outcome where
  | exited (code : Nat) : Outcome
  | raised (e : PyErr) : Outcome
deriving DecidableEq, Repr

/-- The result of a run: the event trace, the final filesystem, and how
the process terminated. -/
structure RunResult where
  events : List Event
  fs : FS
  outcome : Outcome
deriving DecidableEq, Repr

/-- Source line 24: the per-OS default install base directories. -/
def AVAILABLE_OS_CONFIGS : List (String × String) :=
  [("windows", "C:/Program Files/Blender Foundation"),
   ("linux", "/usr/local/blender"),
   ("macos", "/Applications/Blender.app")]

/-- The recognised OS tags (`AVAILABLE_OS_CONFIGS.keys()`). -/
def osKeys : List String := AVAILABLE_OS_CONFIGS.map Prod.fst

/-- `AVAILABLE_OS_CONFIGS[os]` (source line 53); `none` models `KeyError`. -/
def osDefaultDir (osTag : String) : Option String :=
  (AVAILABLE_OS_CONFIGS.find? (fun e => e.1 == osTag)).map (fun e => e.2)

/-- The parsed command-line arguments (source lines 37–42).  `argparse`
restricts a supplied `--os` to the keys of `AVAILABLE_OS_CONFIGS`. -/
structure Args where
  version : String
  osArg : Option String
  baseDirArg : Option String
  url : String
deriving DecidableEq, Repr

/-- How the write-permission probe of source lines 58–66 behaves on this
run: `open` succeeds and so does the write, `open` itself raises
`IOError`, or `open` creates the file and the write/flush then raises
`IOError`. -/
inductive ProbeBehavior where
  | ok : ProbeBehavior
  | openFail : ProbeBehavior
  | writeFail : ProbeBehavior
deriving DecidableEq, Repr

/-- The environment of one run: host OS as reported by
`platform.system()`, probe behaviour, the `href` attribute of each anchor
of the fetched listing page in document order (`none` = anchor without
`href`), the archive the archive GET returns, `tempfile.gettempdir()`,
and the initial filesystem. -/
structure World where
  detected : String
  probe : ProbeBehavior
  anchors : List (Option String)
  fetched : Archive
  tmpdir : String
  fs : FS

/-- `os.path.join(base_dir, f"Blender {args.version}")` (source line 68). -/
def latestDirP (baseDir version : String) : String :=
  baseDir ++ "/Blender " ++ version

/-- `os.path.join(latest_dir, ".blender_build")` (source line 69). -/
def versionFileP (baseDir version : String) : String :=
  latestDirP baseDir version ++ "/.blender_build"

/-- `os.path.join(base_dir, "_temp_test.txt")` (source line 59). -/
def probePathP (baseDir : String) : String := baseDir ++ "/_temp_test.txt"

/-- `os.path.join(tempfile.gettempdir(), os.path.basename(file_url))`
(source line 92). -/
def downloadPathP (tmpdir href : String) : String :=
  tmpdir ++ "/" ++ basenameStr href

/-- The configuration a run works with once OS tag and base directory are
resolved. -/
structure Ctx where
  version : String
  osTag : String
  baseDir : String
  url : String
  tmpdir : String
  fetched : Archive

def Ctx.latestDir (c : Ctx) : String := latestDirP c.baseDir c.version

def Ctx.versionFile (c : Ctx) : String := versionFileP c.baseDir c.version

def Ctx.probePath (c : Ctx) : String := probePathP c.baseDir

/-! ## The stages of the run -/

/-- The two console messages of the permission-failure branch
(source lines 62–63). -/
def permMsgs (baseDir : String) : List Event :=
  [Event.print ("You do not have write permission in the directory: " ++ baseDir),
   Event.print "Please restart the script as admin or select a different target directory with --base-dir argument"]

/-- The write-permission probe (source lines 58–66): try to create and
write `_temp_test.txt` in the base directory; on `IOError` print the two
messages (the script then exits with code 1); on success remove the file.
Returns the events, the filesystem afterwards, and whether the probe
succeeded. -/
def probeStage (baseDir : String) (b : ProbeBehavior) (fs : FS) :
    List Event × FS × Bool :=
  let pp := probePathP baseDir
  match b with
  | ProbeBehavior.openFail => (permMsgs baseDir, fs, false)
  | ProbeBehavior.writeFail =>
      ([Event.writeFile pp] ++ permMsgs baseDir, writeF fs pp (Node.text ""), false)
  | ProbeBehavior.ok =>
      ([Event.writeFile pp, Event.removeFile pp],
        removeF (writeF fs pp (Node.text "TEST")) pp, true)

/-- The download stage (source lines 92–105): skip the network transfer
when a file already exists at the download path and is a valid zip;
otherwise remove any stale file and stream the archive GET to disk. -/
def downloadStep (c : Ctx) (u : String) (fs : FS) : List Event × FS :=
  let dp := downloadPathP c.tmpdir u
  if existsB fs dp && is_valid_zip fs dp then ([], fs)
  else
    let pe : List Event × FS :=
      if existsB fs dp then ([Event.removeFile dp], removeF fs dp) else ([], fs)
    (pe.1 ++ [Event.print "Downloading archive...", Event.getArchive u,
      Event.writeFile dp],
      writeF pe.2 dp (Node.zipf c.fetched))

/-- Join path segments below `root` with `"/"`. -/
def segsToPath (root : String) (segs : List String) : String :=
  segs.foldl (fun acc s => acc ++ "/" ++ s) root

/-- The filesystem writes performed by
`shutil.move(os.path.join(extracted_folder, item), latest_dir)` for one
`item`: every archive entry under `[t, item]` lands below
`latestDir/item`.  (Intermediate directories that the archive leaves
implicit below the moved roots are not materialised; no claim inspects
them.) -/
def subtreeMoves (a : Archive) (t item latest : String) :
    List (String × Node) :=
  let root := latest ++ "/" ++ item
  (if a.entries.any (fun e => e.1 == [t, item]) then ([] : List (String × Node))
   else [(root, Node.dir)]) ++
  a.entries.filterMap (fun e =>
    match e.1 with
    | s :: i :: rest =>
        if s = t ∧ i = item then
          some (segsToPath root rest,
            match e.2 with
            | ZNode.dirN => Node.dir
            | ZNode.fileN cont => Node.text cont)
        else none
    | _ => none)

/-- Apply a list of writes to the filesystem, in order. -/
def applyWrites (fs : FS) (ws : List (String × Node)) : FS :=
  ws.foldl (fun f e => writeF f e.1 e.2) fs

/-- The extract-and-install stage (source lines 109–120): wipe the install
directory when it exists, recreate it, open the downloaded archive
(raising `BadZipFile` when it is not a valid zip), extract it to a fresh
scratch directory, take the first top-level entry (`os.listdir(...)[0]`,
raising `IndexError` on an empty archive), then list that entry's
children (`os.listdir(extracted_folder)`, raising `NotADirectoryError`
when the entry is a regular file) and move each child into the install
directory.  Returns events, filesystem, and the uncaught exception if one
was raised. -/
def extractInstall (c : Ctx) (u : String) (fs : FS) :
    List Event × FS × Option PyErr :=
  let ld := c.latestDir
  let dp := downloadPathP c.tmpdir u
  let pe : List Event × FS :=
    if existsB fs ld then ([Event.rmtreeDir ld], rmtreeF fs ld) else ([], fs)
  let fs2 := writeF pe.2 ld Node.dir
  let evs := pe.1 ++ [Event.makedirs ld, Event.openZip dp]
  match lookupF fs2 dp with
  | some (Node.zipf a) =>
      if a.valid then
        match a.tops with
        | [] => (evs ++ [Event.extractAll], fs2, some PyErr.indexError)
        | t :: _ =>
            if a.topIsDir t then
              let items := a.childrenOf t
              (evs ++ [Event.extractAll] ++ items.map Event.moveItem,
                items.foldl (fun f it => applyWrites f (subtreeMoves a t it ld)) fs2,
                none)
            else (evs ++ [Event.extractAll], fs2, some PyErr.notADirError)
      else (evs, fs2, some PyErr.badZipFile)
  | some _ => (evs, fs2, some PyErr.badZipFile)
  | none => (evs, fs2, some PyErr.fileNotFound)

/-- The body of the match branch after the marker comparison decided to
proceed (source lines 89–127): announce the link, download if needed,
extract and install, then overwrite the marker file with the link. -/
def installRest (c : Ctx) (u : String) (fs : FS) : RunResult :=
  let e0 := [Event.print ("Found the latest version: " ++ u)]
  let d := downloadStep c u fs
  let e2 := [Event.print "Extracting archive..."]
  let x := extractInstall c u d.2
  match x.2.2 with
  | some er => ⟨e0 ++ d.1 ++ e2 ++ x.1, x.2.1, Outcome.raised er⟩
  | none =>
      ⟨e0 ++ d.1 ++ e2 ++ x.1 ++
        [Event.writeFile c.versionFile,
         Event.print ("Blender " ++ c.version ++ " lastest build downloaded and installed successfully!")],
        writeF x.2.1 c.versionFile (Node.text u),
        Outcome.exited 0⟩

/-- The loop body at the first matching anchor (source lines 82–127): if
the marker file exists and contains exactly the matched link, print
"No new version available." and break (the script then ends with exit
code 0); otherwise run the download/extract/install flow. -/
def installBody (c : Ctx) (u : String) (fs : FS) : RunResult :=
  match lookupF fs c.versionFile with
  | some (Node.text s) =>
      if s == u then ⟨[Event.print "No new version available."], fs, Outcome.exited 0⟩
      else installRest c u fs
  | some _ => ⟨[], fs, Outcome.raised PyErr.ioError⟩
  | none => installRest c u fs

/-- Page fetch, anchor scan and dispatch (source lines 72–130): fetch the
listing page, scan the anchors; no anchor matching prints "This version
cannot be found" and the script ends with exit code 0; an anchor without
`href` reached before a match raises `TypeError`. -/
def runMain (c : Ctx) (anchors : List (Option String)) (fs : FS)
    (evs : List Event) : RunResult :=
  let evs1 := evs ++ [Event.print "Fetching the download page...",
    Event.getPage c.url, Event.print "Looking for the latest version..."]
  match scanHrefs c.version c.osTag anchors with
  | Except.error e => ⟨evs1, fs, Outcome.raised e⟩
  | Except.ok none =>
      ⟨evs1 ++ [Event.print "This version cannot be found"], fs, Outcome.exited 0⟩
  | Except.ok (some u) =>
      let r := installBody c u fs
      ⟨evs1 ++ r.events, r.fs, r.outcome⟩

/-- Probe then main flow (source lines 58 onward), given the resolved
configuration. -/
def runFromProbe (c : Ctx) (w : World) : RunResult :=
  let p := probeStage c.baseDir w.probe w.fs
  if p.2.2 then runMain c w.anchors p.2.1 p.1
  else ⟨p.1, p.2.1, Outcome.exited 1⟩

/-- The OS tag the run works with (source lines 45–46): the `--os`
argument if supplied, otherwise `platform.system().lower()`. -/
def resolvedOS (args : Args) (w : World) : String :=
  args.osArg.getD (lowerS w.detected)

/-- The base directory (source lines 52–55): `--base-dir` if supplied,
otherwise the per-OS default. -/
def resolveBaseDir (args : Args) (osTag : String) : Option String :=
  match args.baseDirArg with
  | some d => some d
  | none => osDefaultDir osTag

/-- The whole script (source lines 37–130).  `argparse` rejects a `--os`
value outside its `choices` with exit code 2 before the script body runs;
an unrecognised detected OS prints a message and exits 1; a missing
default base directory would be an uncaught `KeyError`. -/
def run (args : Args) (w : World) : RunResult :=
  match args.osArg with
  | some s =>
      if osKeys.contains s then runValidated args w else ⟨[], w.fs, Outcome.exited 2⟩
  | none => runValidated args w
where
  runValidated (args : Args) (w : World) : RunResult :=
    let osTag := resolvedOS args w
    if osKeys.contains (lowerS osTag) then
      match resolveBaseDir args osTag with
      | some bd =>
          runFromProbe
            ⟨args.version, osTag, bd, args.url, w.tmpdir, w.fetched⟩ w
      | none => ⟨[], w.fs, Outcome.raised PyErr.keyError⟩
    else
      ⟨[Event.print ("Unsupported operating system: " ++ osTag)], w.fs,
        Outcome.exited 1⟩

/-! ## Concrete fixtures (used to evaluate the theorems on closed inputs) -/

/-- An archive with exactly one top-level folder holding two files. -/
def fixZip : Archive :=
  ⟨true, [(["top"], ZNode.dirN), (["top", "A"], ZNode.fileN "ca"),
    (["top", "B"], ZNode.fileN "cb")]⟩

/-- A link as it appears on the daily-builds listing page. -/
def fixLink : String := "https://h/blender-4.1.0-linux64.zip"

/-- Command-line arguments pinning version, OS and base directory. -/
def fixArgs : Args := ⟨"4.1", some "linux", some "/base", "http://x"⟩

/-- A world whose listing page offers `fixLink` after one non-matching
anchor. -/
def fixWorld : World :=
  ⟨"Linux", ProbeBehavior.ok, [some "nope.txt", some fixLink], fixZip, "/tmp", []⟩

/-- `fixWorld` after one successful install (marker file written). -/
def fixWorldInstalled : World := { fixWorld with fs := (run fixArgs fixWorld).fs }

/-- A world whose probe write fails after the probe file was created. -/
def fixWorldWriteFail : World := { fixWorld with probe := ProbeBehavior.writeFail }

/-- A world with an installed build where the page now offers a different
link whose downloaded archive is invalid. -/
def fixWorldBadFresh : World :=
  ⟨"Linux", ProbeBehavior.ok, [some "https://h/blender-4.1.9-linux64.zip"],
    ⟨false, []⟩, "/tmp2", (run fixArgs fixWorld).fs⟩

/-- A world whose page has an anchor with no `href` before any match. -/
def fixWorldNoHref : World :=
  ⟨"Linux", ProbeBehavior.ok, [some "nope.txt", none, some fixLink], fixZip, "/tmp", []⟩

/-- A world with a valid archive already cached at the download path (the
network would return garbage, but is never asked). -/
def fixWorldCached : World :=
  ⟨"Linux", ProbeBehavior.ok, [some fixLink], ⟨false, []⟩, "/tmp",
    [("/tmp/blender-4.1.0-linux64.zip", Node.zipf fixZip)]⟩

/-! ## Toolkit lemmas: filesystem operations -/

theorem lookupF_filter (fs : FS) (P : String → Bool) (q : String) :
    lookupF (fs.filter (fun e => P e.1)) q
      = if P q then lookupF fs q else none := by
  induction fs with
  | nil => simp [lookupF]
  | cons e fs ih =>
      by_cases hpe : P e.1
      · by_cases heq : e.1 = q
        · subst heq
          simp [lookupF, List.filter_cons, hpe]
        · have hbe : (e.1 == q) = false := by simp [heq]
          simp only [List.filter_cons, hpe, if_pos]
          simpa [lookupF, List.find?, hbe] using ih
      · by_cases heq : e.1 = q
        · subst heq
          simp only [List.filter_cons, hpe, if_neg, Bool.false_eq_true,
            not_false_iff]
          simpa [hpe] using ih
        · have hbe : (e.1 == q) = false := by simp [heq]
          simp only [List.filter_cons, hpe, if_neg, Bool.false_eq_true,
            not_false_iff]
          simpa [lookupF, List.find?, hbe] using ih

theorem lookupF_writeF_self (fs : FS) (p : String) (n : Node) :
    lookupF (writeF fs p n) p = some n := by
  simp [writeF, lookupF, List.find?]

theorem lookupF_writeF_ne (fs : FS) (p q : String) (n : Node) (h : q ≠ p) :
    lookupF (writeF fs p n) q = lookupF fs q := by
  have hbe : (p == q) = false := by
    simp only [beq_eq_false_iff_ne]
    exact Ne.symm h
  have := lookupF_filter fs (fun x => decide (x ≠ p)) q
  simp only [writeF, lookupF, List.find?, hbe] at *
  simpa [h] using this

theorem lookupF_removeF_self (fs : FS) (p : String) :
    lookupF (removeF fs p) p = none := by
  simp [removeF, lookupF]

theorem lookupF_removeF_ne (fs : FS) (p q : String) (h : q ≠ p) :
    lookupF (removeF fs p) q = lookupF fs q := by
  have := lookupF_filter fs (fun x => decide (x ≠ p)) q
  simpa [removeF, lookupF, h] using this

theorem lookupF_rmtreeF (fs : FS) (p q : String) :
    lookupF (rmtreeF fs p) q
      = if q = p ∨ isPrefixOfL (p.data ++ ['/']) q.data = true then none
        else lookupF fs q := by
  have h0 := lookupF_filter fs
    (fun x => decide (¬ (x = p ∨ isPrefixOfL (p.data ++ ['/']) x.data = true))) q
  by_cases h : q = p ∨ isPrefixOfL (p.data ++ ['/']) q.data = true
  · have hb : decide (¬ (q = p ∨ isPrefixOfL (p.data ++ ['/']) q.data = true)) = false := by
      simp only [decide_eq_false_iff_not, Decidable.not_not]
      exact h
    rw [hb] at h0
    rw [if_pos h]
    simpa [rmtreeF] using h0
  · have hb : decide (¬ (q = p ∨ isPrefixOfL (p.data ++ ['/']) q.data = true)) = true := by
      simp only [decide_eq_true_eq]
      exact h
    rw [hb] at h0
    rw [if_neg h]
    simpa [rmtreeF] using h0

/-! ## Toolkit lemmas: prefixes and path shapes -/

theorem isPrefixOfL_append_self (l r : List Char) :
    isPrefixOfL l (l ++ r) = true := by
  induction l with
  | nil => simp [isPrefixOfL]
  | cons a as ih => simp [isPrefixOfL, ih]

theorem isPrefixOfL_refl (l : List Char) : isPrefixOfL l l = true := by
  simpa using isPrefixOfL_append_self l []

theorem isPrefixOfL_of_append (l r m : List Char)
    (h : isPrefixOfL (l ++ r) m = true) : isPrefixOfL l m = true := by
  induction l generalizing m with
  | nil => simp [isPrefixOfL]
  | cons a as ih =>
      cases m with
      | nil => simp [isPrefixOfL] at h
      | cons b bs =>
          simp only [List.cons_append, isPrefixOfL, Bool.and_eq_true,
            beq_iff_eq] at h ⊢
          exact ⟨h.1, ih bs h.2⟩

theorem dropPrefixL_append (l r : List Char) :
    dropPrefixL l (l ++ r) = some r := by
  induction l with
  | nil => simp [dropPrefixL]
  | cons a as ih => simp [dropPrefixL, ih]

theorem isPrefixOfL_of_dropPrefixL (l m r : List Char)
    (h : dropPrefixL l m = some r) : isPrefixOfL l m = true := by
  induction l generalizing m with
  | nil => simp [isPrefixOfL]
  | cons a as ih =>
      cases m with
      | nil => simp [dropPrefixL] at h
      | cons b bs =>
          simp only [dropPrefixL] at h
          by_cases hab : a == b
          · simp only [isPrefixOfL, Bool.and_eq_true]
            refine ⟨hab, ih bs ?_⟩
            simpa [hab] using h
          · simp [hab] at h

theorem length_le_of_isPrefixOfL (l m : List Char)
    (h : isPrefixOfL l m = true) : l.length ≤ m.length := by
  induction l generalizing m with
  | nil => simp
  | cons a as ih =>
      cases m with
      | nil => simp [isPrefixOfL] at h
      | cons b bs =>
          simp only [isPrefixOfL, Bool.and_eq_true] at h
          simpa using ih bs h.2

theorem childName_prefixed (p q n : String) (h : childName p q = some n) :
    isPrefixOfL (p.data ++ ['/']) q.data = true := by
  unfold childName at h
  cases hd : dropPrefixL (p.data ++ ['/']) q.data with
  | none => rw [hd] at h; exact absurd h (by simp)
  | some rest => exact isPrefixOfL_of_dropPrefixL _ _ _ hd

theorem childName_self (p : String) : childName p p = none := by
  unfold childName
  cases hd : dropPrefixL (p.data ++ ['/']) p.data with
  | none => rfl
  | some rest =>
      exfalso
      have hpre := isPrefixOfL_of_dropPrefixL _ _ _ hd
      have hlen := length_le_of_isPrefixOfL _ _ hpre
      simp at hlen

/-- Viewing a joined path at the character-list level. -/
theorem join_data (p n : String) :
    (p ++ "/" ++ n).data = (p.data ++ ['/']) ++ n.data := rfl

theorem childName_append (p n : String) (hne : n.data ≠ [])
    (hns : n.data.contains '/' = false) :
    childName p (p ++ "/" ++ n) = some n := by
  unfold childName
  rw [join_data, dropPrefixL_append]
  cases hn : n.data with
  | nil => exact absurd hn hne
  | cons c cs =>
      rw [hn] at hns
      simp only [hn, hns]
      simp only [Bool.false_eq_true, if_false]
      cases n with
      | mk d =>
          simp only at hn
          rw [hn]

/-! ## Toolkit lemmas: de-duplication, listings, and the anchor scan -/

theorem mem_dedupFuel (n : Nat) (l : List String) (h : l.length ≤ n) (x : String) :
    x ∈ dedupFuel n l ↔ x ∈ l := by
  induction n generalizing l with
  | zero =>
      cases l with
      | nil => simp [dedupFuel]
      | cons a as => simp at h
  | succ n ih =>
      cases l with
      | nil => simp [dedupFuel]
      | cons a as =>
          have h' : as.length ≤ n := by
            simp only [List.length_cons] at h
            omega
          have hlen : (as.filter (fun y => y ≠ a)).length ≤ n :=
            le_trans (List.length_filter_le _ _) h'
          simp only [dedupFuel, List.mem_cons, ih _ hlen]
          constructor
          · rintro (rfl | hx)
            · exact Or.inl rfl
            · exact Or.inr (List.mem_filter.mp hx).1
          · rintro (rfl | hx)
            · exact Or.inl rfl
            · by_cases hxa : x = a
              · exact Or.inl hxa
              · exact Or.inr (List.mem_filter.mpr ⟨hx, by simp [hxa]⟩)

theorem mem_dedupF (l : List String) (x : String) : x ∈ dedupF l ↔ x ∈ l :=
  mem_dedupFuel l.length l le_rfl x

theorem mem_listdirF (fs : FS) (p x : String) :
    x ∈ listdirF fs p ↔ ∃ e, e ∈ fs ∧ childName p e.1 = some x := by
  unfold listdirF
  rw [mem_dedupF, List.mem_filterMap]

/-- The anchor scan agrees with `selectLink` on pages whose anchors all
carry an `href`. -/
theorem scanHrefs_map_some (v os : String) (l : List String) :
    scanHrefs v os (l.map some) = Except.ok (selectLink v os l) := by
  induction l with
  | nil => rfl
  | cons a as ih =>
      cases h : linkMatches v os a with
      | true => simp [scanHrefs, selectLink, List.find?, h]
      | false => simpa [scanHrefs, selectLink, List.find?, h] using ih

/-- First-match characterisation of `List.find?`. -/
theorem find?_first (p : String → Bool) (l : List String) (u : String) :
    l.find? p = some u ↔
      ∃ pre post, l = pre ++ u :: post ∧ p u = true ∧ ∀ v ∈ pre, p v = false := by
  induction l with
  | nil => simp
  | cons a as ih =>
      cases h : p a with
      | true =>
          simp only [List.find?, h]
          constructor
          · intro h'
            injection h' with h'
            exact ⟨[], as, by rw [h']; rfl, h' ▸ h, by simp⟩
          · rintro ⟨pre, post, heq, hu, hpre⟩
            cases pre with
            | nil =>
                simp only [List.nil_append, List.cons.injEq] at heq
                rw [heq.1]
            | cons b bs =>
                simp only [List.cons_append, List.cons.injEq] at heq
                have : p b = false := hpre b (List.mem_cons_self ..)
                rw [heq.1] at h
                rw [h] at this
                exact absurd this (by simp)
      | false =>
          simp only [List.find?, h]
          rw [ih]
          constructor
          · rintro ⟨pre, post, heq, hu, hpre⟩
            refine ⟨a :: pre, post, by rw [heq]; rfl, hu, ?_⟩
            intro v hv
            rcases List.mem_cons.mp hv with rfl | hv'
            · exact h
            · exact hpre v hv'
          · rintro ⟨pre, post, heq, hu, hpre⟩
            cases pre with
            | nil =>
                simp only [List.nil_append, List.cons.injEq] at heq
                rw [heq.1] at h
                rw [h] at hu
                exact absurd hu (by simp)
            | cons b bs =>
                simp only [List.cons_append, List.cons.injEq] at heq
                refine ⟨bs, post, heq.2, hu, ?_⟩
                intro v hv
                exact hpre v (List.mem_cons_of_mem _ hv)

/-! ## Toolkit lemmas: concrete path shapes -/

theorem versionFileP_data (bd v : String) :
    (versionFileP bd v).data
      = bd.data ++ ("/Blender ".data ++ (v.data ++ "/.blender_build".data)) := by
  show ((bd.data ++ "/Blender ".data) ++ v.data) ++ "/.blender_build".data = _
  simp [List.append_assoc]

theorem latestDirP_data (bd v : String) :
    (latestDirP bd v).data = bd.data ++ ("/Blender ".data ++ v.data) := by
  show (bd.data ++ "/Blender ".data) ++ v.data = _
  simp [List.append_assoc]

theorem probePathP_data (bd : String) :
    (probePathP bd).data = bd.data ++ "/_temp_test.txt".data := rfl

theorem versionFileP_ne_probePathP (bd v : String) :
    versionFileP bd v ≠ probePathP bd := by
  intro h
  have hd : (versionFileP bd v).data = (probePathP bd).data := by rw [h]
  rw [versionFileP_data, probePathP_data] at hd
  have h2 := List.append_cancel_left hd
  have hB : "/Blender ".data ++ (v.data ++ "/.blender_build".data)
      = '/' :: 'B' :: ("lender ".data ++ (v.data ++ "/.blender_build".data)) := rfl
  have hU : "/_temp_test.txt".data = '/' :: '_' :: "temp_test.txt".data := rfl
  rw [hB, hU] at h2
  injection h2 with _ h3
  injection h3 with h4 _
  exact absurd h4 (by decide)

theorem latestDirP_ne_probePathP (bd v : String) :
    latestDirP bd v ≠ probePathP bd := by
  intro h
  have hd : (latestDirP bd v).data = (probePathP bd).data := by rw [h]
  rw [latestDirP_data, probePathP_data] at hd
  have h2 := List.append_cancel_left hd
  have hB : "/Blender ".data ++ v.data
      = '/' :: 'B' :: ("lender ".data ++ v.data) := rfl
  have hU : "/_temp_test.txt".data = '/' :: '_' :: "temp_test.txt".data := rfl
  rw [hB, hU] at h2
  injection h2 with _ h3
  injection h3 with h4 _
  exact absurd h4 (by decide)

theorem isPrefixOfL_append_both (l xs ys : List Char) :
    isPrefixOfL (l ++ xs) (l ++ ys) = isPrefixOfL xs ys := by
  induction l with
  | nil => rfl
  | cons a as ih => simp [isPrefixOfL, ih]

/-- Children of the install directory differ from the probe file. -/
theorem under_latestDirP_ne_probePathP (bd v q : String)
    (h : isPrefixOfL ((latestDirP bd v).data ++ ['/']) q.data = true) :
    q ≠ probePathP bd := by
  intro hq
  subst hq
  rw [latestDirP_data] at h
  have e : (bd.data ++ ("/Blender ".data ++ v.data)) ++ ['/']
      = bd.data ++ ('/' :: 'B' :: ("lender ".data ++ v.data ++ ['/'])) := by
    simp [List.append_assoc]
  rw [e, probePathP_data, show "/_temp_test.txt".data = '/' :: '_' :: "temp_test.txt".data from rfl,
    show ('/' :: 'B' :: ("lender ".data ++ v.data ++ ['/'])) = ['/'] ++ ('B' :: ("lender ".data ++ v.data ++ ['/'])) from rfl,
    show ('/' :: '_' :: "temp_test.txt".data) = ['/'] ++ ('_' :: "temp_test.txt".data) from rfl,
    ← List.append_assoc, ← List.append_assoc, isPrefixOfL_append_both] at h
  simp [isPrefixOfL] at h

/-! ## Toolkit lemmas: lower-casing and OS keys -/

theorem lowC_idem (c : Char) : lowC (lowC c) = lowC c := by
  by_cases h : 'A' ≤ c ∧ c ≤ 'Z'
  · have hA : 'A'.toNat ≤ c.toNat := h.1
    have hZ : c.toNat ≤ 'Z'.toNat := h.2
    have e1 : 'A'.toNat = 65 := rfl
    have e2 : 'Z'.toNat = 90 := rfl
    rw [e1] at hA
    rw [e2] at hZ
    have hv : (c.toNat + 32).isValidChar := Or.inl (by omega)
    have ht : (Char.ofNat (c.toNat + 32)).toNat = c.toNat + 32 := by
      unfold Char.ofNat
      rw [dif_pos hv]
      rfl
    have hne : ¬ ('A' ≤ Char.ofNat (c.toNat + 32) ∧ Char.ofNat (c.toNat + 32) ≤ 'Z') := by
      rintro ⟨_, h2⟩
      have h3 : (Char.ofNat (c.toNat + 32)).toNat ≤ 'Z'.toNat := h2
      rw [ht, e2] at h3
      omega
    simp only [lowC, if_pos h, if_neg hne]
  · simp only [lowC, if_neg h]

theorem lowerS_idem (s : String) : lowerS (lowerS s) = lowerS s := by
  unfold lowerS
  congr 1
  show (s.toList.map lowC).map lowC = s.toList.map lowC
  rw [List.map_map]
  induction s.toList with
  | nil => rfl
  | cons a l ih => simp [ih, lowC_idem]

theorem osKeys_cases (s : String) (h : osKeys.contains s = true) :
    s = "windows" ∨ s = "linux" ∨ s = "macos" := by
  simp [osKeys, AVAILABLE_OS_CONFIGS, List.contains] at h
  tauto

theorem lowerS_of_key (s : String) (h : osKeys.contains s = true) :
    lowerS s = s := by
  rcases osKeys_cases s h with rfl | rfl | rfl <;> decide

theorem osDefaultDir_of_key (s : String) (h : osKeys.contains s = true) :
    (osDefaultDir s).isSome = true := by
  rcases osKeys_cases s h with rfl | rfl | rfl <;> decide

/-! ## Toolkit lemmas: reducing the whole run -/

/-- Under valid argument/OS/base-directory resolution, the run is the
probe-then-main flow on the resolved configuration. -/
theorem run_reduces (args : Args) (w : World) (bd : String)
    (hargp : ∀ s, args.osArg = some s → osKeys.contains s = true)
    (hos : osKeys.contains (lowerS (resolvedOS args w)) = true)
    (hbd : resolveBaseDir args (resolvedOS args w) = some bd) :
    run args w
      = runFromProbe ⟨args.version, resolvedOS args w, bd, args.url,
          w.tmpdir, w.fetched⟩ w := by
  unfold run
  cases ho : args.osArg with
  | none => simp only [run.runValidated, hos, if_true, hbd]
  | some s =>
      have hk := hargp s ho
      simp only [hk, if_true, run.runValidated, hos, hbd]

/-- With a successful probe, the run continues on the filesystem in which
the probe file has been created and removed again. -/
theorem runFromProbe_ok (c : Ctx) (w : World) (h : w.probe = ProbeBehavior.ok) :
    runFromProbe c w
      = runMain c w.anchors
          (removeF (writeF w.fs (probePathP c.baseDir) (Node.text "TEST"))
            (probePathP c.baseDir))
          [Event.writeFile (probePathP c.baseDir),
           Event.removeFile (probePathP c.baseDir)] := by
  simp [runFromProbe, probeStage, h]

/-- The probe's create-then-delete leaves every other path untouched. -/
theorem lookupF_after_probe (fs : FS) (bd p : String) (hne : p ≠ probePathP bd) :
    lookupF (removeF (writeF fs (probePathP bd) (Node.text "TEST"))
      (probePathP bd)) p = lookupF fs p := by
  rw [lookupF_removeF_ne _ _ _ hne, lookupF_writeF_ne _ _ _ _ hne]

/-! ## The claims -/

/-- C1: on every listing page (whose anchors all carry an `href`) and for
every `(version, os)` pair, the link scan selects exactly the first anchor
in document order whose `href` contains `"blender-<version>"`, contains
the OS tag, and ends with `".zip"`; anchors failing the predicate are
never selected, and among several matches the earliest wins. -/
theorem claim_C1 (version osTag : String) (hrefs : List String) :
    scanHrefs version osTag (hrefs.map some)
        = Except.ok (selectLink version osTag hrefs) ∧
    (∀ u, selectLink version osTag hrefs = some u ↔
      ∃ pre post, hrefs = pre ++ u :: post ∧
        linkMatches version osTag u = true ∧
        ∀ v ∈ pre, linkMatches version osTag v = false) :=
  ⟨scanHrefs_map_some version osTag hrefs,
   fun u => find?_first (linkMatches version osTag) hrefs u⟩

/-- C9: the anchor scan survives only when every anchor reached carries an
`href`: an anchor without `href` that is reached (no earlier anchor
matched) raises `TypeError` regardless of the anchors after it, pages
whose anchors all carry `href`s never raise, and the whole run terminates
with the uncaught `TypeError`. -/
theorem claim_C9 :
    (∀ version osTag (pre rest : List (Option String)),
      (∀ x ∈ pre, ∃ s, x = some s ∧ linkMatches version osTag s = false) →
      scanHrefs version osTag (pre ++ none :: rest)
        = Except.error PyErr.typeError) ∧
    (∀ version osTag (anchors : List (Option String)),
      (∀ x ∈ anchors, x.isSome = true) →
      ∃ r, scanHrefs version osTag anchors = Except.ok r) ∧
    (∀ args w bd,
      (∀ s, args.osArg = some s → osKeys.contains s = true) →
      osKeys.contains (lowerS (resolvedOS args w)) = true →
      resolveBaseDir args (resolvedOS args w) = some bd →
      w.probe = ProbeBehavior.ok →
      scanHrefs args.version (resolvedOS args w) w.anchors
        = Except.error PyErr.typeError →
      (run args w).outcome = Outcome.raised PyErr.typeError) := by
  refine ⟨?_, ?_, ?_⟩
  · intro version osTag pre rest hpre
    induction pre with
    | nil => rfl
    | cons x xs ih =>
        obtain ⟨s, rfl, hs⟩ := hpre x (List.mem_cons_self ..)
        have := ih (fun y hy => hpre y (List.mem_cons_of_mem _ hy))
        simpa [scanHrefs, hs] using this
  · intro version osTag anchors hall
    induction anchors with
    | nil => exact ⟨none, rfl⟩
    | cons x xs ih =>
        match x, hall x (List.mem_cons_self ..) with
        | some s, _ =>
            cases hs : linkMatches version osTag s with
            | true => exact ⟨some s, by simp [scanHrefs, hs]⟩
            | false =>
                obtain ⟨r, hr⟩ := ih (fun y hy => hall y (List.mem_cons_of_mem _ hy))
                exact ⟨r, by simpa [scanHrefs, hs] using hr⟩
  · intro args w bd hargp hos hbd hprobe hscan
    rw [run_reduces args w bd hargp hos hbd, runFromProbe_ok _ _ hprobe]
    simp [runMain, hscan]

/-- C4: on every run reaching the download stage, the network transfer is
skipped exactly when a file already exists at the temp download path and
is a valid zip; otherwise any existing file there is removed before the
archive GET is issued. -/
theorem claim_C4 (c : Ctx) (u : String) (fs : FS) :
    ((Event.getArchive u ∈ (downloadStep c u fs).1) ↔
      ¬ (existsB fs (downloadPathP c.tmpdir u) = true ∧
          is_valid_zip fs (downloadPathP c.tmpdir u) = true)) ∧
    (downloadStep c u fs = ([], fs) ↔
      (existsB fs (downloadPathP c.tmpdir u) = true ∧
        is_valid_zip fs (downloadPathP c.tmpdir u) = true)) ∧
    (existsB fs (downloadPathP c.tmpdir u) = true →
      is_valid_zip fs (downloadPathP c.tmpdir u) = false →
      (downloadStep c u fs).1
        = [Event.removeFile (downloadPathP c.tmpdir u),
           Event.print "Downloading archive...", Event.getArchive u,
           Event.writeFile (downloadPathP c.tmpdir u)] ∧
      (downloadStep c u fs).2
        = writeF (removeF fs (downloadPathP c.tmpdir u))
            (downloadPathP c.tmpdir u) (Node.zipf c.fetched)) := by
  by_cases hc : existsB fs (downloadPathP c.tmpdir u) = true ∧
      is_valid_zip fs (downloadPathP c.tmpdir u) = true
  · have hb : (existsB fs (downloadPathP c.tmpdir u) &&
        is_valid_zip fs (downloadPathP c.tmpdir u)) = true := by
      rw [hc.1, hc.2]; rfl
    refine ⟨?_, ?_, ?_⟩
    · simp [downloadStep, hb, hc]
    · simp [downloadStep, hb, hc]
    · intro _ hv
      exact absurd hc.2 (by rw [hv]; simp)
  · have hb : (existsB fs (downloadPathP c.tmpdir u) &&
        is_valid_zip fs (downloadPathP c.tmpdir u)) = false := by
      rcases Decidable.not_and_iff_or_not.mp hc with h | h
      · rw [Bool.eq_false_iff.mpr h]; rfl
      · rw [Bool.eq_false_iff.mpr h]; simp
    refine ⟨?_, ?_, ?_⟩
    · simp [downloadStep, hb, hc]
    · constructor
      · intro h
        exfalso
        by_cases he : existsB fs (downloadPathP c.tmpdir u) = true
        · have hv : is_valid_zip fs (downloadPathP c.tmpdir u) = false := by
            cases hvv : is_valid_zip fs (downloadPathP c.tmpdir u) with
            | true => exact absurd ⟨he, hvv⟩ hc
            | false => rfl
          simpa [downloadStep, hb, he, hv] using congrArg Prod.fst h
        · simpa [downloadStep, hb, he] using congrArg Prod.fst h
      · intro h
        exact absurd h hc
    · intro he hv
      simp [downloadStep, hb, he, hv]

/-- C7 (amended): after the permission probe, the probe file is gone when
the probe succeeded, and the filesystem is untouched when opening the
probe file failed; but when the file is created and the write then fails,
the probe file remains on disk. -/
theorem claim_C7 (bd : String) (fs : FS) (b : ProbeBehavior) :
    (b = ProbeBehavior.ok →
      lookupF (probeStage bd b fs).2.1 (probePathP bd) = none) ∧
    (b = ProbeBehavior.openFail → (probeStage bd b fs).2.1 = fs) ∧
    (b = ProbeBehavior.writeFail →
      lookupF (probeStage bd b fs).2.1 (probePathP bd)
        = some (Node.text "")) := by
  refine ⟨?_, ?_, ?_⟩ <;> rintro rfl
  · simp [probeStage, lookupF_removeF_self]
  · rfl
  · simp [probeStage, lookupF_writeF_self]

/-- C7 witness: evaluating the amended statement on the success path. -/
theorem claim_C7_witness :
    lookupF (probeStage "/b" ProbeBehavior.ok []).2.1 (probePathP "/b") = none :=
  (claim_C7 "/b" [] ProbeBehavior.ok).1 rfl

/-- C7 counterexample: a run in which the probe file is created, the write
fails, and the file remains on the filesystem after the run ends — against
the claim that the probe file never remains on the failure path. -/
theorem claim_C7_counterexample :
    (run fixArgs fixWorldWriteFail).outcome = Outcome.exited 1 ∧
    existsB (run fixArgs fixWorldWriteFail).fs (probePathP "/base") = true := by
  constructor
  · rfl
  · rfl

/-- C1 witness: the scan picks the first matching link on a concrete
page. -/
theorem claim_C1_witness :
    selectLink "4.1" "linux"
      ["nope.txt", fixLink, "https://h/blender-4.1.1-linux64.zip"]
      = some fixLink := by
  have h := (claim_C1 "4.1" "linux"
    ["nope.txt", fixLink, "https://h/blender-4.1.1-linux64.zip"]).2 fixLink
  exact h.mpr ⟨["nope.txt"], ["https://h/blender-4.1.1-linux64.zip"], rfl,
    by decide, by decide⟩

/-- C9 witness: a concrete page with an `href`-less anchor before the first
match makes the whole run raise `TypeError`. -/
theorem claim_C9_witness :
    scanHrefs "4.1" "linux" ([some "nope.txt"] ++ none :: [some fixLink])
        = Except.error PyErr.typeError ∧
    (run fixArgs fixWorldNoHref).outcome = Outcome.raised PyErr.typeError := by
  constructor
  · refine claim_C9.1 "4.1" "linux" [some "nope.txt"] [some fixLink] ?_
    intro x hx
    simp only [List.mem_singleton] at hx
    exact ⟨"nope.txt", hx, by decide⟩
  · refine claim_C9.2.2 fixArgs fixWorldNoHref "/base" ?_ (by decide) rfl rfl rfl
    intro s hs
    have h2 : s = "linux" := by
      have : (some "linux" : Option String) = some s := hs
      injection this with h3
      exact h3.symm
    rw [h2]
    decide

/-- C4 witness: with a stale invalid file at the download path, the stage
removes it and then issues the GET. -/
theorem claim_C4_witness :
    (downloadStep ⟨"4.1", "linux", "/base", "http://x", "/tmp", fixZip⟩ fixLink
        [("/tmp/blender-4.1.0-linux64.zip", Node.text "junk")]).1
      = [Event.removeFile "/tmp/blender-4.1.0-linux64.zip",
         Event.print "Downloading archive...", Event.getArchive fixLink,
         Event.writeFile "/tmp/blender-4.1.0-linux64.zip"] := by
  have h := (claim_C4 ⟨"4.1", "linux", "/base", "http://x", "/tmp", fixZip⟩
    fixLink [("/tmp/blender-4.1.0-linux64.zip", Node.text "junk")]).2.2
    (by decide) (by decide)
  exact h.1

/-- The install flow always announces the link it is about to install. -/
theorem mem_found_installRest (c : Ctx) (u : String) (fs : FS) :
    Event.print ("Found the latest version: " ++ u) ∈ (installRest c u fs).events := by
  unfold installRest
  cases hx : (extractInstall c u (downloadStep c u fs).2).2.2 <;> simp [hx]

/-- C2: with a successful probe and a first matched link `u`, a marker
file whose full contents equal `u` makes the run print
"No new version available.", perform no archive GET, and exit with code
0; a missing or different marker makes the run proceed to the download
flow. -/
theorem claim_C2 (args : Args) (w : World) (bd u : String)
    (hargp : ∀ s, args.osArg = some s → osKeys.contains s = true)
    (hos : osKeys.contains (lowerS (resolvedOS args w)) = true)
    (hbd : resolveBaseDir args (resolvedOS args w) = some bd)
    (hprobe : w.probe = ProbeBehavior.ok)
    (hscan : scanHrefs args.version (resolvedOS args w) w.anchors
      = Except.ok (some u)) :
    (lookupF w.fs (versionFileP bd args.version) = some (Node.text u) →
      (run args w).outcome = Outcome.exited 0 ∧
      Event.print "No new version available." ∈ (run args w).events ∧
      ∀ x, Event.getArchive x ∉ (run args w).events) ∧
    ((lookupF w.fs (versionFileP bd args.version) = none ∨
      (∃ s, lookupF w.fs (versionFileP bd args.version) = some (Node.text s)
        ∧ s ≠ u)) →
      Event.print ("Found the latest version: " ++ u) ∈ (run args w).events) := by
  rw [run_reduces args w bd hargp hos hbd, runFromProbe_ok _ _ hprobe]
  have hvf : lookupF
      (removeF (writeF w.fs (probePathP bd) (Node.text "TEST")) (probePathP bd))
      (versionFileP bd args.version)
      = lookupF w.fs (versionFileP bd args.version) :=
    lookupF_after_probe w.fs bd _ (versionFileP_ne_probePathP bd args.version)
  constructor
  · intro hm
    rw [hm] at hvf
    simp [runMain, hscan, installBody, Ctx.versionFile, Ctx.latestDir, hvf]
  · intro hm
    rcases hm with hm | ⟨s, hm, hsu⟩
    · rw [hm] at hvf
      simp [runMain, hscan, installBody, Ctx.versionFile, Ctx.latestDir, hvf,
        mem_found_installRest]
    · rw [hm] at hvf
      have hbe : (s == u) = false := by
        simp only [beq_eq_false_iff_ne]
        exact hsu
      simp [runMain, hscan, installBody, Ctx.versionFile, Ctx.latestDir, hvf,
        hbe, mem_found_installRest]

/-- The fixture arguments pass the `argparse` choices restriction. -/
theorem fixArgs_argp : ∀ s, fixArgs.osArg = some s → osKeys.contains s = true := by
  intro s hs
  have h3 : (some "linux" : Option String) = some s := hs
  injection h3 with h4
  rw [← h4]
  decide

/-- C2 witness: rerunning on the filesystem produced by an install takes
the "no new version" path. -/
theorem claim_C2_witness :
    (run fixArgs fixWorldInstalled).outcome = Outcome.exited 0 ∧
    Event.print "No new version available." ∈ (run fixArgs fixWorldInstalled).events := by
  have h := (claim_C2 fixArgs fixWorldInstalled "/base" fixLink fixArgs_argp
    (by decide) rfl rfl rfl).1 (by rfl)
  exact ⟨h.1, h.2.1⟩

/-- C10: on the "no new version" path the run leaves the filesystem as it
found it except for creating and deleting the probe file, and its only
external effects are the probe, the page GET and console prints — in
particular no archive GET. -/
theorem claim_C10 (args : Args) (w : World) (bd u : String)
    (hargp : ∀ s, args.osArg = some s → osKeys.contains s = true)
    (hos : osKeys.contains (lowerS (resolvedOS args w)) = true)
    (hbd : resolveBaseDir args (resolvedOS args w) = some bd)
    (hprobe : w.probe = ProbeBehavior.ok)
    (hscan : scanHrefs args.version (resolvedOS args w) w.anchors
      = Except.ok (some u))
    (hm : lookupF w.fs (versionFileP bd args.version) = some (Node.text u)) :
    (∀ p, p ≠ probePathP bd → lookupF (run args w).fs p = lookupF w.fs p) ∧
    lookupF (run args w).fs (probePathP bd) = none ∧
    (∀ x, Event.getArchive x ∉ (run args w).events) ∧
    (∀ e ∈ (run args w).events,
      e = Event.writeFile (probePathP bd) ∨ e = Event.removeFile (probePathP bd) ∨
      (∃ m, e = Event.print m) ∨ e = Event.getPage args.url) := by
  rw [run_reduces args w bd hargp hos hbd, runFromProbe_ok _ _ hprobe]
  have hvf : lookupF
      (removeF (writeF w.fs (probePathP bd) (Node.text "TEST")) (probePathP bd))
      (versionFileP bd args.version) = some (Node.text u) := by
    rw [lookupF_after_probe w.fs bd _ (versionFileP_ne_probePathP bd args.version)]
    exact hm
  refine ⟨?_, ?_, ?_, ?_⟩
  · intro p hp
    simp only [runMain, hscan, installBody, Ctx.versionFile, Ctx.latestDir, hvf,
      beq_self_eq_true, if_true]
    exact lookupF_after_probe w.fs bd p hp
  · simp only [runMain, hscan, installBody, Ctx.versionFile, Ctx.latestDir, hvf,
      beq_self_eq_true, if_true]
    exact lookupF_removeF_self _ _
  · intro x
    simp [runMain, hscan, installBody, Ctx.versionFile, Ctx.latestDir, hvf]
  · intro e he
    simp only [runMain, hscan, installBody, Ctx.versionFile, Ctx.latestDir, hvf,
      beq_self_eq_true, if_true] at he
    fin_cases he <;> simp

/-- C10 witness: the frame condition evaluated on the concrete installed
world. -/
theorem claim_C10_witness :
    lookupF (run fixArgs fixWorldInstalled).fs (probePathP "/base") = none ∧
    lookupF (run fixArgs fixWorldInstalled).fs (versionFileP "/base" "4.1")
      = lookupF fixWorldInstalled.fs (versionFileP "/base" "4.1") := by
  have h := claim_C10 fixArgs fixWorldInstalled "/base" fixLink fixArgs_argp
    (by decide) rfl rfl rfl (by rfl)
  exact ⟨h.2.1, h.1 _ (by decide)⟩

/-! ## Stage lemmas for the install flow -/

theorem ne_of_not_prefixL (x y : String)
    (h : isPrefixOfL x.data y.data = false) : y ≠ x := by
  intro hxy
  subst hxy
  rw [isPrefixOfL_refl] at h
  exact absurd h (by simp)

theorem not_prefix_slash (x y : String)
    (h : isPrefixOfL x.data y.data = false) :
    isPrefixOfL (x.data ++ ['/']) y.data = false := by
  cases hp : isPrefixOfL (x.data ++ ['/']) y.data with
  | false => rfl
  | true => rw [isPrefixOfL_of_append _ _ _ hp] at h; exact h

/-- With no file at the download path, the download stage streams the
archive GET to disk. -/
theorem downloadStep_fresh (c : Ctx) (u : String) (fs : FS)
    (h : existsB fs (downloadPathP c.tmpdir u) = false) :
    downloadStep c u fs
      = ([Event.print "Downloading archive...", Event.getArchive u,
          Event.writeFile (downloadPathP c.tmpdir u)],
         writeF fs (downloadPathP c.tmpdir u) (Node.zipf c.fetched)) := by
  simp [downloadStep, h]

/-- With no stale file, or a stale invalid file, at the download path,
the download stage ends with the fetched archive on disk. -/
theorem downloadStep_fs_notcached (c : Ctx) (u : String) (fs : FS)
    (h : (existsB fs (downloadPathP c.tmpdir u) &&
      is_valid_zip fs (downloadPathP c.tmpdir u)) = false) :
    (downloadStep c u fs).2
      = writeF (if existsB fs (downloadPathP c.tmpdir u) = true
          then removeF fs (downloadPathP c.tmpdir u) else fs)
        (downloadPathP c.tmpdir u) (Node.zipf c.fetched) := by
  unfold downloadStep
  simp only [h]
  by_cases he : existsB fs (downloadPathP c.tmpdir u) = true <;> simp [he]

/-- With a valid archive already at the download path, the download stage
is a no-op. -/
theorem downloadStep_cached (c : Ctx) (u : String) (fs : FS)
    (h : (existsB fs (downloadPathP c.tmpdir u) &&
      is_valid_zip fs (downloadPathP c.tmpdir u)) = true) :
    downloadStep c u fs = ([], fs) := by
  simp [downloadStep, h]

/-- When the downloaded file is a valid nonempty zip whose first top-level
entry is a directory, away from the install directory, extraction
succeeds and performs the wipe–recreate–open–extract–move sequence. -/
theorem extractInstall_ok (c : Ctx) (u : String) (fs : FS) (a : Archive)
    (t : String) (ts : List String)
    (hdp : lookupF fs (downloadPathP c.tmpdir u) = some (Node.zipf a))
    (hv : a.valid = true) (htops : a.tops = t :: ts)
    (hdir : a.topIsDir t = true)
    (hsep : isPrefixOfL c.latestDir.data (downloadPathP c.tmpdir u).data
      = false) :
    ∃ e1, (extractInstall c u fs).1
        = e1 ++ [Event.makedirs c.latestDir,
            Event.openZip (downloadPathP c.tmpdir u), Event.extractAll]
          ++ (a.childrenOf t).map Event.moveItem ∧
      (extractInstall c u fs).2.2 = none ∧
      (extractInstall c u fs).2.1
        = (a.childrenOf t).foldl
            (fun f it => applyWrites f (subtreeMoves a t it c.latestDir))
            (writeF (if existsB fs c.latestDir then rmtreeF fs c.latestDir else fs)
              c.latestDir Node.dir) := by
  have hne : downloadPathP c.tmpdir u ≠ c.latestDir := ne_of_not_prefixL _ _ hsep
  have hns : isPrefixOfL (c.latestDir.data ++ ['/'])
      (downloadPathP c.tmpdir u).data = false := not_prefix_slash _ _ hsep
  by_cases hld : existsB fs c.latestDir = true
  · have hdp2 : lookupF (writeF (rmtreeF fs c.latestDir) c.latestDir Node.dir)
        (downloadPathP c.tmpdir u) = some (Node.zipf a) := by
      rw [lookupF_writeF_ne _ _ _ _ hne, lookupF_rmtreeF]
      rw [if_neg]
      · exact hdp
      · rintro (h1 | h1)
        · exact hne h1
        · rw [h1] at hns; exact absurd hns (by simp)
    refine ⟨[Event.rmtreeDir c.latestDir], ?_, ?_, ?_⟩ <;>
      simp [extractInstall, hld, hdp2, hv, htops, hdir]
  · have hdp2 : lookupF (writeF fs c.latestDir Node.dir)
        (downloadPathP c.tmpdir u) = some (Node.zipf a) := by
      rw [lookupF_writeF_ne _ _ _ _ hne]
      exact hdp
    refine ⟨[], ?_, ?_, ?_⟩ <;>
      simp [extractInstall, hld, hdp2, hv, htops, hdir]

/-- C3: after every successful install — whether the archive was a cached
valid file at the download path (`a` the archive on disk there) or came
from a fresh download (`a = w.fetched`), with the effective archive
valid, nonempty, and its first top-level entry a directory — the marker
file is overwritten so that its contents equal exactly the matched link,
regardless of what it contained before, and the marker write is the last
filesystem event, after extraction and all moves. -/
theorem claim_C3 (args : Args) (w : World) (bd u t : String) (ts : List String)
    (a : Archive)
    (hargp : ∀ s, args.osArg = some s → osKeys.contains s = true)
    (hos : osKeys.contains (lowerS (resolvedOS args w)) = true)
    (hbd : resolveBaseDir args (resolvedOS args w) = some bd)
    (hprobe : w.probe = ProbeBehavior.ok)
    (hscan : scanHrefs args.version (resolvedOS args w) w.anchors
      = Except.ok (some u))
    (hm : lookupF w.fs (versionFileP bd args.version) = none ∨
      ∃ s, lookupF w.fs (versionFileP bd args.version) = some (Node.text s)
        ∧ s ≠ u)
    (ha : (lookupF w.fs (downloadPathP w.tmpdir u) = some (Node.zipf a)
        ∧ a.valid = true) ∨
      (¬ (existsB w.fs (downloadPathP w.tmpdir u) = true ∧
          is_valid_zip w.fs (downloadPathP w.tmpdir u) = true)
        ∧ a = w.fetched))
    (hdpp : downloadPathP w.tmpdir u ≠ probePathP bd)
    (hsep : isPrefixOfL (latestDirP bd args.version).data
      (downloadPathP w.tmpdir u).data = false)
    (hvalid : a.valid = true)
    (htops : a.tops = t :: ts)
    (hdir : a.topIsDir t = true) :
    (run args w).outcome = Outcome.exited 0 ∧
    lookupF (run args w).fs (versionFileP bd args.version)
      = some (Node.text u) ∧
    ∃ pre, (run args w).events
        = pre ++ [Event.writeFile (versionFileP bd args.version),
            Event.print ("Blender " ++ args.version ++
              " lastest build downloaded and installed successfully!")] ∧
      Event.extractAll ∈ pre := by
  rw [run_reduces args w bd hargp hos hbd, runFromProbe_ok _ _ hprobe]
  set c : Ctx := ⟨args.version, resolvedOS args w, bd, args.url, w.tmpdir,
    w.fetched⟩ with hc
  set fs1 : FS := removeF (writeF w.fs (probePathP bd) (Node.text "TEST"))
    (probePathP bd) with hfs1
  have hvf : lookupF fs1 (versionFileP bd args.version)
      = lookupF w.fs (versionFileP bd args.version) :=
    lookupF_after_probe w.fs bd _ (versionFileP_ne_probePathP bd args.version)
  have hdp1 : lookupF fs1 (downloadPathP w.tmpdir u)
      = lookupF w.fs (downloadPathP w.tmpdir u) :=
    lookupF_after_probe w.fs bd _ hdpp
  have hdp2 : lookupF (downloadStep c u fs1).2 (downloadPathP c.tmpdir u)
      = some (Node.zipf a) := by
    rcases ha with ⟨hl, _⟩ | ⟨hnc, rfl⟩
    · have hcond : (existsB fs1 (downloadPathP c.tmpdir u) &&
          is_valid_zip fs1 (downloadPathP c.tmpdir u)) = true := by
        show (existsB fs1 (downloadPathP w.tmpdir u) &&
          is_valid_zip fs1 (downloadPathP w.tmpdir u)) = true
        rw [existsB, hdp1]
        rw [show is_valid_zip fs1 (downloadPathP w.tmpdir u)
            = is_valid_zip w.fs (downloadPathP w.tmpdir u) from by
          rw [is_valid_zip, is_valid_zip, hdp1]]
        rw [hl]
        simp [is_valid_zip, hl, hvalid]
      rw [downloadStep_cached c u fs1 hcond]
      show lookupF fs1 (downloadPathP w.tmpdir u) = some (Node.zipf a)
      rw [hdp1]
      exact hl
    · have hcond : (existsB fs1 (downloadPathP c.tmpdir u) &&
          is_valid_zip fs1 (downloadPathP c.tmpdir u)) = false := by
        show (existsB fs1 (downloadPathP w.tmpdir u) &&
          is_valid_zip fs1 (downloadPathP w.tmpdir u)) = false
        rw [existsB, hdp1]
        rw [show is_valid_zip fs1 (downloadPathP w.tmpdir u)
            = is_valid_zip w.fs (downloadPathP w.tmpdir u) from by
          rw [is_valid_zip, is_valid_zip, hdp1]]
        cases h1 : (lookupF w.fs (downloadPathP w.tmpdir u)).isSome with
        | false => rfl
        | true =>
            cases h2 : is_valid_zip w.fs (downloadPathP w.tmpdir u) with
            | false => rfl
            | true => exact absurd ⟨h1, h2⟩ hnc
      rw [downloadStep_fs_notcached c u fs1 hcond]
      exact lookupF_writeF_self _ _ _
  have hext := extractInstall_ok c u (downloadStep c u fs1).2 a t ts hdp2
    hvalid htops hdir hsep
  obtain ⟨e1, hev, herr, hfs⟩ := hext
  have hbody : installBody c u fs1 = installRest c u fs1 := by
    rcases hm with hmm | ⟨s, hmm, hsu⟩
    · rw [hmm] at hvf
      simp [installBody, Ctx.versionFile, hvf]
    · rw [hmm] at hvf
      have hbe : (s == u) = false := by
        simp only [beq_eq_false_iff_ne]; exact hsu
      simp [installBody, Ctx.versionFile, hvf, hbe]
  have hrest : installRest c u fs1
      = ⟨[Event.print ("Found the latest version: " ++ u)]
          ++ (downloadStep c u fs1).1
          ++ [Event.print "Extracting archive..."]
          ++ (extractInstall c u (downloadStep c u fs1).2).1
          ++ [Event.writeFile c.versionFile,
              Event.print ("Blender " ++ c.version ++
                " lastest build downloaded and installed successfully!")],
         writeF (extractInstall c u (downloadStep c u fs1).2).2.1
           c.versionFile (Node.text u),
         Outcome.exited 0⟩ := by
    simp only [installRest, herr]
  refine ⟨?_, ?_, ?_⟩
  · simp [runMain, hscan, hbody, hrest]
  · simp [runMain, hscan, hbody, hrest, Ctx.versionFile, lookupF_writeF_self]
  · refine ⟨[Event.writeFile (probePathP bd), Event.removeFile (probePathP bd),
      Event.print "Fetching the download page...", Event.getPage args.url,
      Event.print "Looking for the latest version...",
      Event.print ("Found the latest version: " ++ u)]
      ++ (downloadStep c u fs1).1
      ++ [Event.print "Extracting archive..."]
      ++ (extractInstall c u (downloadStep c u fs1).2).1, ?_, ?_⟩
    · simp [runMain, hscan, hbody, hrest, Ctx.versionFile]
    · rw [hev]
      simp

/-- C3 witness: both install paths write the marker with the matched link —
the end-to-end fixture install with a fresh download, and the install
from a cached valid archive at the download path. -/
theorem claim_C3_witness :
    ((run fixArgs fixWorld).outcome = Outcome.exited 0 ∧
      lookupF (run fixArgs fixWorld).fs (versionFileP "/base" "4.1")
        = some (Node.text fixLink)) ∧
    ((run fixArgs fixWorldCached).outcome = Outcome.exited 0 ∧
      lookupF (run fixArgs fixWorldCached).fs (versionFileP "/base" "4.1")
        = some (Node.text fixLink)) := by
  constructor
  · have h := claim_C3 fixArgs fixWorld "/base" fixLink "top" [] fixZip
      fixArgs_argp (by decide) rfl rfl rfl (Or.inl rfl)
      (Or.inr ⟨by decide, rfl⟩) (by decide) (by decide) rfl rfl rfl
    exact ⟨h.1, h.2.1⟩
  · have h := claim_C3 fixArgs fixWorldCached "/base" fixLink "top" [] fixZip
      fixArgs_argp (by decide) rfl rfl rfl (Or.inl rfl)
      (Or.inl ⟨rfl, rfl⟩) (by decide) (by decide) rfl rfl rfl
    exact ⟨h.1, h.2.1⟩

/-- The marker file is strictly below the install directory. -/
theorem versionFileP_ne_latestDirP (bd v : String) :
    versionFileP bd v ≠ latestDirP bd v := by
  intro h
  have hd : (versionFileP bd v).data = (latestDirP bd v).data := by rw [h]
  have h1 : (versionFileP bd v).data
      = (latestDirP bd v).data ++ "/.blender_build".data := rfl
  rw [h1] at hd
  have h2 : (latestDirP bd v).data ++ "/.blender_build".data
      = (latestDirP bd v).data ++ ([] : List Char) := by
    rw [hd, List.append_nil]
  have h3 := List.append_cancel_left h2
  exact absurd h3 (by decide)

/-- The marker path sits under the install directory, so `rmtree` on the
install directory removes it. -/
theorem versionFileP_under_latestDirP (bd v : String) :
    isPrefixOfL ((latestDirP bd v).data ++ ['/']) (versionFileP bd v).data
      = true := by
  have h1 : (versionFileP bd v).data
      = (latestDirP bd v).data ++ (['/'] ++ ".blender_build".data) := rfl
  rw [h1, ← List.append_assoc]
  exact isPrefixOfL_append_self _ _

/-- After wipe-and-recreate, the install directory lists no children. -/
theorem listdirF_wiped (fs : FS) (p : String) :
    listdirF (writeF (rmtreeF fs p) p Node.dir) p = [] := by
  unfold listdirF
  have h : (writeF (rmtreeF fs p) p Node.dir).filterMap
      (fun e => childName p e.1) = [] := by
    rw [List.filterMap_eq_nil_iff]
    intro e he
    rcases List.mem_cons.mp he with rfl | he'
    · exact childName_self p
    · have he2 := List.mem_filter.mp he'
      have he3 := List.mem_filter.mp he2.1
      cases hcn : childName p e.1 with
      | none => rfl
      | some x =>
          exfalso
          have hpre := childName_prefixed _ _ _ hcn
          have := of_decide_eq_true he3.2
          exact this (Or.inr hpre)
  rw [h]
  rfl

/-- When the downloaded file is not a valid zip, extraction wipes the
existing install directory, recreates it, opens the archive and raises
`BadZipFile`. -/
theorem extractInstall_badzip (c : Ctx) (u : String) (fs : FS) (a : Archive)
    (hdp : lookupF fs (downloadPathP c.tmpdir u) = some (Node.zipf a))
    (hv : a.valid = false)
    (hsep : isPrefixOfL c.latestDir.data (downloadPathP c.tmpdir u).data
      = false)
    (hld : existsB fs c.latestDir = true) :
    extractInstall c u fs
      = ([Event.rmtreeDir c.latestDir, Event.makedirs c.latestDir,
          Event.openZip (downloadPathP c.tmpdir u)],
         writeF (rmtreeF fs c.latestDir) c.latestDir Node.dir,
         some PyErr.badZipFile) := by
  have hne : downloadPathP c.tmpdir u ≠ c.latestDir := ne_of_not_prefixL _ _ hsep
  have hns : isPrefixOfL (c.latestDir.data ++ ['/'])
      (downloadPathP c.tmpdir u).data = false := not_prefix_slash _ _ hsep
  have hdp2 : lookupF (writeF (rmtreeF fs c.latestDir) c.latestDir Node.dir)
      (downloadPathP c.tmpdir u) = some (Node.zipf a) := by
    rw [lookupF_writeF_ne _ _ _ _ hne, lookupF_rmtreeF]
    rw [if_neg]
    · exact hdp
    · rintro (h1 | h1)
      · exact hne h1
      · rw [h1] at hns; exact absurd hns (by simp)
  simp [extractInstall, hld, hdp2, hv]

/-- C8: when the download path did not already hold a valid archive, the
run wipes the existing install directory (marker included) before first
opening the freshly downloaded file, so if that file is not a valid zip
the run raises `BadZipFile` and ends with the old build and marker gone
and nothing installed in their place. -/
theorem claim_C8 (args : Args) (w : World) (bd u : String)
    (hargp : ∀ s, args.osArg = some s → osKeys.contains s = true)
    (hos : osKeys.contains (lowerS (resolvedOS args w)) = true)
    (hbd : resolveBaseDir args (resolvedOS args w) = some bd)
    (hprobe : w.probe = ProbeBehavior.ok)
    (hscan : scanHrefs args.version (resolvedOS args w) w.anchors
      = Except.ok (some u))
    (hm : lookupF w.fs (versionFileP bd args.version) = none ∨
      ∃ s, lookupF w.fs (versionFileP bd args.version) = some (Node.text s)
        ∧ s ≠ u)
    (hcache : ¬ (existsB w.fs (downloadPathP w.tmpdir u) = true ∧
      is_valid_zip w.fs (downloadPathP w.tmpdir u) = true))
    (hld : existsB w.fs (latestDirP bd args.version) = true)
    (hdpp : downloadPathP w.tmpdir u ≠ probePathP bd)
    (hsep : isPrefixOfL (latestDirP bd args.version).data
      (downloadPathP w.tmpdir u).data = false)
    (hbad : w.fetched.valid = false) :
    (run args w).outcome = Outcome.raised PyErr.badZipFile ∧
    lookupF (run args w).fs (versionFileP bd args.version) = none ∧
    listdirF (run args w).fs (latestDirP bd args.version) = [] ∧
    ∃ pre, (run args w).events
        = pre ++ [Event.rmtreeDir (latestDirP bd args.version),
            Event.makedirs (latestDirP bd args.version),
            Event.openZip (downloadPathP w.tmpdir u)] ∧
      Event.openZip (downloadPathP w.tmpdir u) ∉ pre ∧
      Event.getArchive u ∈ pre := by
  rw [run_reduces args w bd hargp hos hbd, runFromProbe_ok _ _ hprobe]
  set c : Ctx := ⟨args.version, resolvedOS args w, bd, args.url, w.tmpdir,
    w.fetched⟩ with hc
  set fs1 : FS := removeF (writeF w.fs (probePathP bd) (Node.text "TEST"))
    (probePathP bd) with hfs1
  have hvf : lookupF fs1 (versionFileP bd args.version)
      = lookupF w.fs (versionFileP bd args.version) :=
    lookupF_after_probe w.fs bd _ (versionFileP_ne_probePathP bd args.version)
  have hdp1 : lookupF fs1 (downloadPathP w.tmpdir u)
      = lookupF w.fs (downloadPathP w.tmpdir u) :=
    lookupF_after_probe w.fs bd _ hdpp
  have hcache1 : (existsB fs1 (downloadPathP c.tmpdir u) &&
      is_valid_zip fs1 (downloadPathP c.tmpdir u)) = false := by
    have he : existsB fs1 (downloadPathP w.tmpdir u)
        = existsB w.fs (downloadPathP w.tmpdir u) := by
      rw [existsB, existsB, hdp1]
    have hz : is_valid_zip fs1 (downloadPathP w.tmpdir u)
        = is_valid_zip w.fs (downloadPathP w.tmpdir u) := by
      rw [is_valid_zip, is_valid_zip, hdp1]
    show (existsB fs1 (downloadPathP w.tmpdir u) &&
      is_valid_zip fs1 (downloadPathP w.tmpdir u)) = false
    rw [he, hz]
    cases h1 : existsB w.fs (downloadPathP w.tmpdir u) with
    | false => rfl
    | true =>
        cases h2 : is_valid_zip w.fs (downloadPathP w.tmpdir u) with
        | false => rfl
        | true => exact absurd ⟨h1, h2⟩ hcache
  have hbody : installBody c u fs1 = installRest c u fs1 := by
    rcases hm with hmm | ⟨s, hmm, hsu⟩
    · rw [hmm] at hvf
      simp [installBody, Ctx.versionFile, hvf]
    · rw [hmm] at hvf
      have hbe : (s == u) = false := by
        simp only [beq_eq_false_iff_ne]; exact hsu
      simp [installBody, Ctx.versionFile, hvf, hbe]
  -- the download stage takes the fresh branch either way
  have hdfs : (downloadStep c u fs1).2
      = writeF (if existsB fs1 (downloadPathP c.tmpdir u) = true
          then removeF fs1 (downloadPathP c.tmpdir u) else fs1)
        (downloadPathP c.tmpdir u) (Node.zipf c.fetched) := by
    unfold downloadStep
    simp only [hcache1]
    by_cases he : existsB fs1 (downloadPathP c.tmpdir u) = true <;> simp [he]
  have hdev : (downloadStep c u fs1).1
      = (if existsB fs1 (downloadPathP c.tmpdir u) = true
          then [Event.removeFile (downloadPathP c.tmpdir u)] else [])
        ++ [Event.print "Downloading archive...", Event.getArchive u,
            Event.writeFile (downloadPathP c.tmpdir u)] := by
    unfold downloadStep
    simp only [hcache1]
    by_cases he : existsB fs1 (downloadPathP c.tmpdir u) = true <;> simp [he]
  have hdp2 : lookupF (downloadStep c u fs1).2 (downloadPathP c.tmpdir u)
      = some (Node.zipf c.fetched) := by
    rw [hdfs]
    exact lookupF_writeF_self _ _ _
  have hcl : c.latestDir = latestDirP bd args.version := rfl
  have hne : downloadPathP w.tmpdir u ≠ latestDirP bd args.version :=
    ne_of_not_prefixL _ _ hsep
  have hldeq : lookupF fs1 (latestDirP bd args.version)
      = lookupF w.fs (latestDirP bd args.version) :=
    lookupF_after_probe w.fs bd _ (latestDirP_ne_probePathP bd args.version)
  have hld2 : existsB (downloadStep c u fs1).2 c.latestDir = true := by
    rw [hdfs, hcl, existsB, lookupF_writeF_ne _ _ _ _ (Ne.symm hne)]
    by_cases he : existsB fs1 (downloadPathP c.tmpdir u) = true
    · rw [if_pos he, lookupF_removeF_ne _ _ _ (Ne.symm hne), hldeq]
      exact hld
    · rw [if_neg he, hldeq]
      exact hld
  have hext := extractInstall_badzip c u (downloadStep c u fs1).2 c.fetched
    hdp2 hbad hsep hld2
  have hrest : installRest c u fs1
      = ⟨[Event.print ("Found the latest version: " ++ u)]
          ++ (downloadStep c u fs1).1
          ++ [Event.print "Extracting archive..."]
          ++ [Event.rmtreeDir c.latestDir, Event.makedirs c.latestDir,
              Event.openZip (downloadPathP c.tmpdir u)],
         writeF (rmtreeF (downloadStep c u fs1).2 c.latestDir) c.latestDir
           Node.dir,
         Outcome.raised PyErr.badZipFile⟩ := by
    simp only [installRest]
    rw [hext]
  refine ⟨?_, ?_, ?_, ?_⟩
  · simp [runMain, hscan, hbody, hrest]
  · simp only [runMain, hscan, hbody, hrest, hcl]
    rw [lookupF_writeF_ne _ _ _ _ (versionFileP_ne_latestDirP bd args.version),
      lookupF_rmtreeF, if_pos]
    exact Or.inr (versionFileP_under_latestDirP bd args.version)
  · simp only [runMain, hscan, hbody, hrest, hcl]
    exact listdirF_wiped _ _
  · refine ⟨[Event.writeFile (probePathP bd), Event.removeFile (probePathP bd),
      Event.print "Fetching the download page...", Event.getPage args.url,
      Event.print "Looking for the latest version...",
      Event.print ("Found the latest version: " ++ u)]
      ++ (downloadStep c u fs1).1
      ++ [Event.print "Extracting archive..."], ?_, ?_, ?_⟩
    · simp [runMain, hscan, hbody, hrest, hcl]
    · rw [hdev]
      by_cases he : existsB fs1 (downloadPathP c.tmpdir u) = true <;>
        simp [he]
    · rw [hdev]
      by_cases he : existsB fs1 (downloadPathP c.tmpdir u) = true <;>
        simp [he]

/-- C8 witness: a concrete rerun whose fresh download is corrupt destroys
the previous install and raises. -/
theorem claim_C8_witness :
    (run fixArgs fixWorldBadFresh).outcome = Outcome.raised PyErr.badZipFile ∧
    lookupF (run fixArgs fixWorldBadFresh).fs (versionFileP "/base" "4.1")
      = none ∧
    listdirF (run fixArgs fixWorldBadFresh).fs (latestDirP "/base" "4.1")
      = [] := by
  have h := claim_C8 fixArgs fixWorldBadFresh "/base"
    "https://h/blender-4.1.9-linux64.zip" fixArgs_argp (by decide) rfl rfl rfl
    (Or.inr ⟨fixLink, by rfl, by decide⟩) (by decide) (by rfl) (by decide)
    (by decide) rfl
  exact ⟨h.1, h.2.1, h.2.2.1⟩

/-! ## Outcome classification for C6 -/

theorem installRest_outcome (c : Ctx) (u : String) (fs : FS) :
    (installRest c u fs).outcome = Outcome.exited 0 ∨
    ∃ e, (installRest c u fs).outcome = Outcome.raised e := by
  simp only [installRest]
  cases hx : (extractInstall c u (downloadStep c u fs).2).2.2 with
  | none => exact Or.inl (by simp [hx])
  | some e => exact Or.inr ⟨e, by simp [hx]⟩

theorem installBody_outcome (c : Ctx) (u : String) (fs : FS) :
    (installBody c u fs).outcome = Outcome.exited 0 ∨
    ∃ e, (installBody c u fs).outcome = Outcome.raised e := by
  unfold installBody
  cases hl : lookupF fs c.versionFile with
  | none => exact installRest_outcome c u fs
  | some n =>
      cases n with
      | text s =>
          by_cases hs : (s == u) = true
          · simp [hs]
          · simp only [hs, Bool.false_eq_true, if_false, if_neg]
            have := installRest_outcome c u fs
            simpa [hs] using this
      | zipf a => exact Or.inr ⟨PyErr.ioError, by simp⟩
      | dir => exact Or.inr ⟨PyErr.ioError, by simp⟩

theorem runMain_outcome (c : Ctx) (anchors : List (Option String)) (fs : FS)
    (evs : List Event) :
    (runMain c anchors fs evs).outcome = Outcome.exited 0 ∨
    ∃ e, (runMain c anchors fs evs).outcome = Outcome.raised e := by
  unfold runMain
  cases hs : scanHrefs c.version c.osTag anchors with
  | error e => exact Or.inr ⟨e, by simp⟩
  | ok r =>
      cases r with
      | none => exact Or.inl (by simp)
      | some u => simpa using installBody_outcome c u fs

/-- Valid OS resolution implies the base directory resolves. -/
theorem resolveBaseDir_isSome (args : Args) (w : World)
    (hargp : ∀ s, args.osArg = some s → osKeys.contains s = true)
    (hos : osKeys.contains (lowerS (resolvedOS args w)) = true) :
    (resolveBaseDir args (resolvedOS args w)).isSome = true := by
  unfold resolveBaseDir
  cases hb : args.baseDirArg with
  | some d => rfl
  | none =>
      cases ho : args.osArg with
      | some s =>
          have hk := hargp s ho
          have hres : resolvedOS args w = s := by
            simp [resolvedOS, ho]
          rw [hres]
          exact osDefaultDir_of_key s hk
      | none =>
          have hres : resolvedOS args w = lowerS w.detected := by
            simp [resolvedOS, ho]
          rw [hres] at hos ⊢
          rw [lowerS_idem] at hos
          exact osDefaultDir_of_key _ hos

/-- Under valid `argparse` choices, the run never exits with code 2. -/
theorem run_validated (args : Args) (w : World)
    (hargp : ∀ s, args.osArg = some s → osKeys.contains s = true) :
    run args w = run.runValidated args w := by
  unfold run
  cases ho : args.osArg with
  | none => rfl
  | some s =>
      have hk := hargp s ho
      simp only [hk, if_true]

/-- C6: with `argparse`-valid arguments, the process exits with code 1
exactly when the resolved OS tag is unrecognised or the write probe
fails, each announced by a console message; every other `exit` is the
clean exit 0 (uncaught exceptions terminate as `raised`, not via
`exit`). -/
theorem claim_C6 (args : Args) (w : World)
    (hargp : ∀ s, args.osArg = some s → osKeys.contains s = true) :
    ((run args w).outcome = Outcome.exited 1 ↔
      (osKeys.contains (lowerS (resolvedOS args w)) = false ∨
        w.probe ≠ ProbeBehavior.ok)) ∧
    (osKeys.contains (lowerS (resolvedOS args w)) = false →
      Event.print ("Unsupported operating system: " ++ resolvedOS args w)
        ∈ (run args w).events) ∧
    (osKeys.contains (lowerS (resolvedOS args w)) = true →
      w.probe ≠ ProbeBehavior.ok →
      ∃ bd, resolveBaseDir args (resolvedOS args w) = some bd ∧
        Event.print ("You do not have write permission in the directory: "
          ++ bd) ∈ (run args w).events) ∧
    (∀ n, (run args w).outcome = Outcome.exited n → n = 0 ∨ n = 1) := by
  cases hosb : osKeys.contains (lowerS (resolvedOS args w)) with
  | false =>
      have hrun : run args w
          = ⟨[Event.print ("Unsupported operating system: "
              ++ resolvedOS args w)], w.fs, Outcome.exited 1⟩ := by
        rw [run_validated args w hargp]
        simp only [run.runValidated, hosb, Bool.false_eq_true, if_false]
      refine ⟨?_, ?_, ?_, ?_⟩
      · rw [hrun]; simp
      · intro _; rw [hrun]; simp
      · intro h; exact absurd h (by simp [hosb])
      · intro n hn; rw [hrun] at hn; simp at hn; omega
  | true =>
      obtain ⟨bd, hbd⟩ := Option.isSome_iff_exists.mp
        (resolveBaseDir_isSome args w hargp hosb)
      have hred := run_reduces args w bd hargp hosb hbd
      cases hp : w.probe with
      | ok =>
          rw [runFromProbe_ok _ _ hp] at hred
          rcases runMain_outcome ⟨args.version, resolvedOS args w, bd,
            args.url, w.tmpdir, w.fetched⟩ w.anchors
            (removeF (writeF w.fs (probePathP bd) (Node.text "TEST"))
              (probePathP bd))
            [Event.writeFile (probePathP bd), Event.removeFile (probePathP bd)]
            with h0 | ⟨e, he⟩
          · refine ⟨?_, ?_, ?_, ?_⟩
            · rw [hred, h0]; simp [hosb, hp]
            · intro h; exact absurd h (by simp [hosb])
            · intro _ h; exact absurd rfl h
            · intro n hn; rw [hred, h0] at hn; left; injection hn.symm
          · refine ⟨?_, ?_, ?_, ?_⟩
            · rw [hred, he]; simp [hosb, hp]
            · intro h; exact absurd h (by simp [hosb])
            · intro _ h; exact absurd rfl h
            · intro n hn; rw [hred, he] at hn; cases hn
      | openFail =>
          have hrun : run args w
              = ⟨permMsgs bd, w.fs, Outcome.exited 1⟩ := by
            rw [hred]; simp [runFromProbe, probeStage, hp]
          refine ⟨?_, ?_, ?_, ?_⟩
          · rw [hrun]; simp [hp]
          · intro h; exact absurd h (by simp [hosb])
          · intro _ _; exact ⟨bd, hbd, by rw [hrun]; simp [permMsgs]⟩
          · intro n hn; rw [hrun] at hn; simp at hn; omega
      | writeFail =>
          have hrun : run args w
              = ⟨[Event.writeFile (probePathP bd)] ++ permMsgs bd,
                 writeF w.fs (probePathP bd) (Node.text ""),
                 Outcome.exited 1⟩ := by
            rw [hred]; simp [runFromProbe, probeStage, hp]
          refine ⟨?_, ?_, ?_, ?_⟩
          · rw [hrun]; simp [hp]
          · intro h; exact absurd h (by simp [hosb])
          · intro _ _; exact ⟨bd, hbd, by rw [hrun]; simp [permMsgs]⟩
          · intro n hn; rw [hrun] at hn; simp at hn; omega

/-- C6 witness: an unsupported detected OS exits 1 with the message. -/
theorem claim_C6_witness :
    ((run ⟨"4.1", none, some "/base", "http://x"⟩
        ⟨"SunOS", ProbeBehavior.ok, [], fixZip, "/tmp", []⟩).outcome
      = Outcome.exited 1) ∧
    Event.print ("Unsupported operating system: " ++ "sunos")
      ∈ (run ⟨"4.1", none, some "/base", "http://x"⟩
          ⟨"SunOS", ProbeBehavior.ok, [], fixZip, "/tmp", []⟩).events := by
  have h := claim_C6 ⟨"4.1", none, some "/base", "http://x"⟩
    ⟨"SunOS", ProbeBehavior.ok, [], fixZip, "/tmp", []⟩
    (by intro s hs; cases hs)
  constructor
  · exact h.1.mpr (Or.inl (by decide))
  · have h2 := h.2.1 (by decide)
    simpa using h2

/-! ## Lemmas for C5 -/

theorem join_ne_of_ne (p A B : String) (h : A ≠ B) :
    p ++ "/" ++ A ≠ p ++ "/" ++ B := by
  intro he
  apply h
  have hd : (p ++ "/" ++ A).data = (p ++ "/" ++ B).data := by rw [he]
  rw [join_data, join_data] at hd
  have h2 := List.append_cancel_left hd
  exact congrArg String.mk h2

/-- Every entry of the wiped-and-recreated install directory state has no
child name under the install directory (given the flat-filesystem
well-formedness side condition when the directory did not exist). -/
theorem childName_none_install_base (fs : FS) (p : String)
    (hwipe : existsB fs p = false →
      ∀ e ∈ fs, isPrefixOfL (p.data ++ ['/']) e.1.data = false) :
    ∀ e ∈ writeF (if existsB fs p = true then rmtreeF fs p else fs) p Node.dir,
      childName p e.1 = none := by
  intro e he
  rcases List.mem_cons.mp he with rfl | he'
  · exact childName_self p
  · have he2 := List.mem_filter.mp he'
    cases hcn : childName p e.1 with
    | none => rfl
    | some x =>
        exfalso
        have hpre := childName_prefixed _ _ _ hcn
        by_cases hex : existsB fs p = true
        · rw [if_pos hex] at he2
          have he3 := List.mem_filter.mp he2.1
          have h4 := of_decide_eq_true he3.2
          exact h4 (Or.inr hpre)
        · rw [if_neg hex] at he2
          have hex' : existsB fs p = false := by
            revert hex
            cases existsB fs p <;> simp
          have h5 := hwipe hex' e he2.1
          rw [hpre] at h5
          exact absurd h5 (by simp)

/-- C5: extracting an archive that consists of exactly one top-level
folder holding two files `A` and `B` leaves the install directory with
exactly the children `A` and `B`, holding the files' contents — no extra
level of nesting. -/
theorem claim_C5 (c : Ctx) (u : String) (fs : FS) (t A B ca cb : String)
    (hdp : lookupF fs (downloadPathP c.tmpdir u)
      = some (Node.zipf ⟨true, [([t], ZNode.dirN), ([t, A], ZNode.fileN ca),
          ([t, B], ZNode.fileN cb)]⟩))
    (hAB : A ≠ B)
    (hA1 : A.data ≠ []) (hA2 : A.data.contains '/' = false)
    (hB1 : B.data ≠ []) (hB2 : B.data.contains '/' = false)
    (hsep : isPrefixOfL c.latestDir.data (downloadPathP c.tmpdir u).data
      = false)
    (hwipe : existsB fs c.latestDir = false →
      ∀ e ∈ fs, isPrefixOfL (c.latestDir.data ++ ['/']) e.1.data = false) :
    (extractInstall c u fs).2.2 = none ∧
    (∀ x, x ∈ listdirF (extractInstall c u fs).2.1 c.latestDir ↔
      (x = A ∨ x = B)) ∧
    lookupF (extractInstall c u fs).2.1 (c.latestDir ++ "/" ++ A)
      = some (Node.text ca) ∧
    lookupF (extractInstall c u fs).2.1 (c.latestDir ++ "/" ++ B)
      = some (Node.text cb) := by
  set a : Archive := ⟨true, [([t], ZNode.dirN), ([t, A], ZNode.fileN ca),
    ([t, B], ZNode.fileN cb)]⟩ with ha
  have htops : a.tops = [t] := by
    simp [ha, Archive.tops, dedupF, dedupFuel]
  have hBA : B ≠ A := Ne.symm hAB
  have hch : a.childrenOf t = [A, B] := by
    simp [ha, Archive.childrenOf, dedupF, dedupFuel, hBA]
  have hdir : a.topIsDir t = true := by
    simp [ha, Archive.topIsDir]
  obtain ⟨e1, hev, herr, hfs⟩ := extractInstall_ok c u fs a t [] hdp rfl
    htops hdir hsep
  have b1 : (([t] : List String) == [t, A]) = false := by
    rw [beq_eq_false_iff_ne]; simp
  have b2 : (([t, A] : List String) == [t, A]) = true := by simp
  have b3 : (([t, B] : List String) == [t, A]) = false := by
    rw [beq_eq_false_iff_ne]; simp [hBA]
  have b4 : (([t] : List String) == [t, B]) = false := by
    rw [beq_eq_false_iff_ne]; simp
  have b5 : (([t, A] : List String) == [t, B]) = false := by
    rw [beq_eq_false_iff_ne]; simp [hAB]
  have b6 : (([t, B] : List String) == [t, B]) = true := by simp
  have eA : subtreeMoves a t A c.latestDir
      = [(c.latestDir ++ "/" ++ A, Node.text ca)] := by
    simp [ha, subtreeMoves, b1, b2, b3, segsToPath, hBA]
  have eB : subtreeMoves a t B c.latestDir
      = [(c.latestDir ++ "/" ++ B, Node.text cb)] := by
    simp [ha, subtreeMoves, b4, b5, b6, segsToPath, hAB]
  set fs2 : FS := writeF (if existsB fs c.latestDir = true
      then rmtreeF fs c.latestDir else fs) c.latestDir Node.dir with hfs2
  have hfsfin : (extractInstall c u fs).2.1
      = writeF (writeF fs2 (c.latestDir ++ "/" ++ A) (Node.text ca))
          (c.latestDir ++ "/" ++ B) (Node.text cb) := by
    rw [hfs, hch]
    simp [applyWrites, eA, eB]
  have hAB' : c.latestDir ++ "/" ++ A ≠ c.latestDir ++ "/" ++ B :=
    join_ne_of_ne c.latestDir A B hAB
  have hbase := childName_none_install_base fs c.latestDir hwipe
  have hcnA : childName c.latestDir (c.latestDir ++ "/" ++ A) = some A :=
    childName_append c.latestDir A hA1 hA2
  have hcnB : childName c.latestDir (c.latestDir ++ "/" ++ B) = some B :=
    childName_append c.latestDir B hB1 hB2
  refine ⟨herr, ?_, ?_, ?_⟩
  · intro x
    rw [hfsfin]
    constructor
    · intro hx
      obtain ⟨e, hefs, hcn⟩ := (mem_listdirF _ _ _).mp hx
      rcases List.mem_cons.mp hefs with rfl | he'
      · rw [hcnB] at hcn
        injection hcn with h7
        exact Or.inr h7.symm
      · have he2 := List.mem_filter.mp he'
        rcases List.mem_cons.mp he2.1 with rfl | he3
        · rw [hcnA] at hcn
          injection hcn with h7
          exact Or.inl h7.symm
        · have he4 := List.mem_filter.mp he3
          rw [hbase e he4.1] at hcn
          cases hcn
    · rintro (rfl | rfl)
      · refine (mem_listdirF _ _ _).mpr
          ⟨(c.latestDir ++ "/" ++ x, Node.text ca), ?_, hcnA⟩
        refine List.mem_cons_of_mem _ (List.mem_filter.mpr ⟨List.mem_cons_self .., ?_⟩)
        simpa using hAB'
      · exact (mem_listdirF _ _ _).mpr
          ⟨(c.latestDir ++ "/" ++ x, Node.text cb), List.mem_cons_self .., hcnB⟩
  · rw [hfsfin, lookupF_writeF_ne _ _ _ _ hAB']
    exact lookupF_writeF_self _ _ _
  · rw [hfsfin]
    exact lookupF_writeF_self _ _ _

/-- C5 witness: the fixture archive extracts to exactly `A` and `B`. -/
theorem claim_C5_witness :
    (extractInstall ⟨"4.1", "linux", "/base", "http://x", "/tmp", fixZip⟩
        fixLink [("/tmp/blender-4.1.0-linux64.zip", Node.zipf fixZip)]).2.2
      = none ∧
    lookupF (extractInstall ⟨"4.1", "linux", "/base", "http://x", "/tmp", fixZip⟩
        fixLink [("/tmp/blender-4.1.0-linux64.zip", Node.zipf fixZip)]).2.1
        (latestDirP "/base" "4.1" ++ "/" ++ "A") = some (Node.text "ca") := by
  have h := claim_C5 ⟨"4.1", "linux", "/base", "http://x", "/tmp", fixZip⟩
    fixLink [("/tmp/blender-4.1.0-linux64.zip", Node.zipf fixZip)]
    "top" "A" "B" "ca" "cb" rfl (by decide) (by decide) (by decide)
    (by decide) (by decide) (by decide)
    (by intro _ e he; simp at he; rw [he]; decide)
  exact ⟨h.1, h.2.2.1⟩

end BD
